import Mathlib

/-!
# `client-duckdb/node.js`: lifecycle, view registration and query façade

A shallow embedding of `packages/universal-sql/src/client-duckdb/node.js`.

* JavaScript strings are lists of UTF-16 code units (`JSString`), so that
  `length`, `split`, `at` and `slice` count what JavaScript counts.
* The module-level variables `db`, `connection`, `initializing` and
  `initPromise` are the fields of `Module`.
* The engine (`@duckdb/duckdb-wasm`) is outside the module; it is an oracle
  that answers every request with "returned" or "threw".
* `initDB` is an `async` function with two suspension points
  (`await createDuckDB(...)`, `await db.instantiate()`); the embedding is a
  step function over events, one event per resumption.
-/

namespace DuckDBNode

/-! ## JavaScript strings -/

/-- A JavaScript string: the list of its UTF-16 code units. -/
abbrev JSString := List Nat

/-- The code units of a literal of the source (all literals are ASCII). -/
def js (s : String) : JSString := s.toList.map Char.toNat

/-- `String.prototype.split(sep)` for a separator of one code unit:
the segments between the occurrences of `sep`, never an empty array. -/
def split (sep : Nat) : JSString → List JSString
  | [] => [[]]
  | c :: cs =>
    if c = sep then [] :: split sep cs
    else
      match split sep cs with
      | [] => [[c]]
      | seg :: segs => (c :: seg) :: segs

/-- `Array.prototype.at(index)`: a negative index counts from the end;
`none` is `undefined`. -/
def arrayAt {α : Type} (xs : List α) (index : Int) : Option α :=
  let k : Int := if index < 0 then (xs.length : Int) + index else index
  if k < 0 then none else xs.get? k.toNat

/-- `String.prototype.slice(start, stop)`: negative arguments count from the
end, both are clamped to `[0, length]`. -/
def slice (s : JSString) (start stop : Int) : JSString :=
  let len : Int := s.length
  let lo : Int := if start < 0 then max (len + start) 0 else min start len
  let hi : Int := if stop < 0 then max (len + stop) 0 else min stop len
  (s.drop lo.toNat).take (hi.toNat - lo.toNat)

/-- Line 105: `url.split('/').at(-1).slice(0, -'.parquet'.length)`.
`none` stands for the `TypeError` of calling `.slice` on `undefined`. -/
def table (url : JSString) : Option JSString :=
  (arrayAt (split 47 url) (-1)).map
    (fun seg => slice seg 0 (-((js ".parquet").length : Int)))

/-- Line 106: the template string that appends `.parquet` to the table name. -/
def file_name (table : JSString) : JSString := table ++ js ".parquet"

/-! ## Errors, promises, module state -/

/-- Values that can be thrown. -/
inductive Err
  /-- a value thrown by the engine or by a collaborator, named by an id -/
  | thrown (id : Nat)
  /-- member access on an undefined `db` or `connection` -/
  | typeError
  /-- the `Error('Timeout while initializing database')` of line 53 -/
  | timeout
  deriving DecidableEq, Repr

/-- State of a `Promise<void>`. -/
inductive Promise
  | pending
  | fulfilled
  | rejected (e : Err)
  deriving DecidableEq, Repr

/-- Lines 18-35: the module-level variables. `db` and `connection` record
whether the variable holds a value. -/
structure Module where
  db : Bool
  connection : Bool
  initializing : Bool
  initPromise : Promise
  deriving DecidableEq, Repr

/-- The module right after it is loaded. -/
def Module.initial : Module :=
  { db := false, connection := false, initializing := false, initPromise := .pending }

/-- Calling `resolveInit()`: settles `initPromise` unless it is settled already. -/
def resolveInit (m : Module) : Module :=
  match m.initPromise with
  | .pending => { m with initPromise := .fulfilled }
  | _ => m

/-- Calling `rejectInit(e)`: settles `initPromise` unless it is settled already. -/
def rejectInit (m : Module) (e : Err) : Module :=
  match m.initPromise with
  | .pending => { m with initPromise := .rejected e }
  | _ => m

/-! ## Engine requests and `setParquetURLs` -/

/-- The member of `DuckDBDataProtocol` that the module uses. -/
inductive DuckDBDataProtocol
  | NODE_FS
  deriving DecidableEq, Repr

/-- What the module sends to the engine during registration. -/
inductive Request
  /-- `connection.query(sql)` -/
  | query (sql : JSString)
  /-- `db.registerFileURL(name, url, proto, direct)` -/
  | registerFileURL (name url : JSString) (proto : DuckDBDataProtocol) (direct : Bool)
  deriving DecidableEq, Repr

/-- The engine as an oracle: given the requests delivered so far and a new
request, `none` when the request returns and `some id` when it throws. -/
abbrev Engine := List Request → Request → Option Nat

/-- Whether the variable a request is called on holds a value. -/
def receiverDefined (m : Module) : Request → Bool
  | .query _ => m.connection
  | .registerFileURL _ _ _ _ => m.db

/-- Evaluating one call expression: a `TypeError` and nothing delivered when
the receiver is undefined, otherwise the request is delivered and the engine
answers. Returns the delivered requests and the thrown value, if any. -/
def call (m : Module) (eng : Engine) (log : List Request) (q : Request) :
    List Request × Option Err :=
  if receiverDefined m q then (log ++ [q], (eng log q).map Err.thrown)
  else (log, some Err.typeError)

/-- Line 103: the schema statement. -/
def schemaSQL (source : JSString) : JSString :=
  js "CREATE SCHEMA IF NOT EXISTS " ++ source ++ js ";"

/-- Line 109: the view statement. -/
def viewSQL (source table fileName : JSString) : JSString :=
  js "CREATE OR REPLACE VIEW " ++ source ++ js "." ++ table ++
    js " AS SELECT * FROM read_parquet('" ++ fileName ++ js "');"

/-- Lines 104-111: the inner loop `for (const url of urls[source])`. -/
def forUrls (m : Module) (eng : Engine) (source : JSString) :
    List JSString → List Request → List Request × Option Err
  | [], log => (log, none)
  | url :: rest, log =>
    match table url with
    | none => (log, some Err.typeError)
    | some t =>
      match call m eng log
          (.registerFileURL (file_name t) (js "./static" ++ url) .NODE_FS false) with
      | (log1, some e) => (log1, some e)
      | (log1, none) =>
        match call m eng log1 (.query (viewSQL source t (file_name t))) with
        | (log2, some e) => (log2, some e)
        | (log2, none) => forUrls m eng source rest log2

/-- Lines 102-112: the outer loop `for (const source in urls)`. The mapping is
the list of its properties in enumeration order. -/
def forSources (m : Module) (eng : Engine) :
    List (JSString × List JSString) → List Request → List Request × Option Err
  | [], log => (log, none)
  | (source, locations) :: rest, log =>
    match call m eng log (.query (schemaSQL source)) with
    | (log1, some e) => (log1, some e)
    | (log1, none) =>
      match forUrls m eng source locations log1 with
      | (log2, some e) => (log2, some e)
      | (log2, none) => forSources m eng rest log2

/-- Result of one `setParquetURLs` call. -/
structure Registered where
  /-- the module afterwards -/
  m : Module
  /-- the requests delivered to the engine so far -/
  log : List Request
  /-- the promise the call returns -/
  outcome : Promise
  deriving DecidableEq, Repr

/-- Lines 100-118. The body has no `await`, so it runs to completion in one go. -/
def setParquetURLs (m : Module) (eng : Engine) (urls : List (JSString × List JSString))
    (log : List Request) : Registered :=
  match forSources m eng urls log with
  | (log1, none) => { m := resolveInit m, log := log1, outcome := .fulfilled }
  | (log1, some e) => { m := rejectInit m e, log := log1, outcome := .rejected e }

/-! ## `initDB` and the event loop -/

/-- Which branch of `initDB` a call took. -/
inductive Path
  /-- line 44: `if (db) return;` -/
  | returned
  /-- lines 48-55: the race between `initPromise` and the five-second timer -/
  | wait
  /-- lines 59-82: the bring-up -/
  | bringUp
  deriving DecidableEq, Repr

/-- Where a bring-up call is suspended. -/
inductive Pc
  /-- at `await createDuckDB(...)`, line 75 -/
  | atCreateDuckDB
  /-- at `await db.instantiate()`, line 76 -/
  | atInstantiate
  /-- not suspended inside the bring-up -/
  | finished
  deriving DecidableEq, Repr

/-- One invocation of `initDB`. `outcome` is the promise it returned; for a
call on the wait path `pending` means the race is still open. `sawDb` and
`sawInitializing` remember the two variables as the call read them. -/
structure Call where
  path : Path
  pc : Pc
  outcome : Promise
  sawDb : Bool
  sawInitializing : Bool
  deriving DecidableEq, Repr

/-- Record of one `setParquetURLs` invocation: its argument, the requests it
delivered to the engine, and the promise it returned. -/
structure Registration where
  urls : List (JSString × List JSString)
  delivered : List Request
  outcome : Promise
  deriving DecidableEq, Repr

/-- The module together with the history of what was called on it. The four
counters count the calls made to `createDuckDB`, `db.instantiate`, `db.open`
and `db.connect`. -/
structure World where
  m : Module
  calls : List Call
  log : List Request
  registrations : List Registration
  createDuckDBCalls : Nat
  instantiateCalls : Nat
  openCalls : Nat
  connectCalls : Nat
  deriving DecidableEq, Repr

/-- The world when the module has just been loaded. -/
def World.initial : World :=
  { m := Module.initial, calls := [], log := [], registrations := [],
    createDuckDBCalls := 0, instantiateCalls := 0, openCalls := 0, connectCalls := 0 }

/-- Reactions on `initPromise`: every open race takes the state of the
promise (and stays open while the promise is pending). -/
def settleWaiters (p : Promise) (calls : List Call) : List Call :=
  calls.map fun c =>
    if c.path = Path.wait ∧ c.outcome = Promise.pending then { c with outcome := p } else c

/-- Lines 42-59 and the call of `createDuckDB` on line 75: an invocation of
`initDB` up to its first suspension point. -/
def initDB (w : World) : World :=
  if w.m.db then
    { w with calls := w.calls ++
        [{ path := .returned, pc := .finished, outcome := .fulfilled,
           sawDb := true, sawInitializing := w.m.initializing }] }
  else if w.m.initializing then
    { w with calls := w.calls ++
        [{ path := .wait, pc := .finished, outcome := w.m.initPromise,
           sawDb := false, sawInitializing := true }] }
  else
    { w with
      m := { w.m with initializing := true }
      calls := w.calls ++
        [{ path := .bringUp, pc := .atCreateDuckDB, outcome := .pending,
           sawDb := false, sawInitializing := false }]
      createDuckDBCalls := w.createDuckDBCalls + 1 }

/-- Lines 79-82: the `catch` block of call `i`. -/
def catchBlock (w : World) (i : Nat) (c : Call) (e : Err) : World :=
  let m1 := rejectInit w.m e
  { w with
    m := m1
    calls := settleWaiters m1.initPromise
      (w.calls.set i { c with pc := .finished, outcome := .rejected e }) }

/-- Resumption of call `i` after `await createDuckDB(...)`: on success `db`
is assigned and `db.instantiate()` is called. -/
def afterCreateDuckDB (w : World) (i : Nat) (r : Option Nat) : World :=
  match w.calls[i]? with
  | none => w
  | some c =>
    if c.pc = Pc.atCreateDuckDB then
      match r with
      | some id => catchBlock w i c (.thrown id)
      | none =>
        { w with
          m := { w.m with db := true }
          calls := w.calls.set i { c with pc := .atInstantiate }
          instantiateCalls := w.instantiateCalls + 1 }
    else w

/-- Resumption of call `i` after `await db.instantiate()`: lines 76-78 and
the normal return. `openR` and `connectR` are what `db.open` and
`db.connect` do if they are reached. -/
def afterInstantiate (w : World) (i : Nat) (r openR connectR : Option Nat) : World :=
  match w.calls[i]? with
  | none => w
  | some c =>
    if c.pc = Pc.atInstantiate then
      match r with
      | some id => catchBlock w i c (.thrown id)
      | none =>
        let w1 := { w with openCalls := w.openCalls + 1 }
        match openR with
        | some id => catchBlock w1 i c (.thrown id)
        | none =>
          let w2 := { w1 with connectCalls := w1.connectCalls + 1 }
          match connectR with
          | some id => catchBlock w2 i c (.thrown id)
          | none =>
            { w2 with
              m := { w2.m with connection := true }
              calls := w2.calls.set i { c with pc := .finished, outcome := .fulfilled } }
    else w

/-- Line 53: the timer of call `i` fires; it decides the race only while the
race is open. -/
def timerFires (w : World) (i : Nat) : World :=
  match w.calls[i]? with
  | none => w
  | some c =>
    if c.path = Path.wait ∧ c.outcome = Promise.pending then
      { w with calls := w.calls.set i { c with outcome := .rejected .timeout } }
    else w

/-- An invocation of `setParquetURLs`, followed by the reactions on
`initPromise`. -/
def registerViews (w : World) (urls : List (JSString × List JSString)) (eng : Engine) :
    World :=
  let r := setParquetURLs w.m eng urls w.log
  { w with
    m := r.m
    log := r.log
    calls := settleWaiters r.m.initPromise w.calls
    registrations := w.registrations ++
      [{ urls := urls, delivered := r.log.drop w.log.length, outcome := r.outcome }] }

/-- What can happen next. -/
inductive Event
  /-- somebody calls `initDB()` -/
  | initDB
  /-- the promise of `createDuckDB` awaited by call `i` settles -/
  | createDuckDBSettles (i : Nat) (r : Option Nat)
  /-- the promise of `db.instantiate()` awaited by call `i` settles -/
  | instantiateSettles (i : Nat) (r openR connectR : Option Nat)
  /-- the five-second timer of call `i` fires -/
  | timerFires (i : Nat)
  /-- somebody calls `setParquetURLs(urls)` -/
  | setParquetURLs (urls : List (JSString × List JSString)) (eng : Engine)

/-- One turn of the event loop. -/
def step (w : World) : Event → World
  | .initDB => initDB w
  | .createDuckDBSettles i r => afterCreateDuckDB w i r
  | .instantiateSettles i r openR connectR => afterInstantiate w i r openR connectR
  | .timerFires i => timerFires w i
  | .setParquetURLs urls eng => registerViews w urls eng

/-- The world after a sequence of events, from the freshly loaded module. -/
def run (evs : List Event) : World := evs.foldl step World.initial

/-! ## `query` -/

/-- The `cache_options` argument of `query`. -/
structure CacheDescriptor where
  route_hash : JSString
  query_name : JSString
  prerendering : Bool
  deriving DecidableEq, Repr

/-- Calls that `query` makes on its collaborators. -/
inductive Effect (Raw : Type)
  /-- `connection.query(sql)` -/
  | connectionQuery (sql : JSString)
  /-- `cache_for_hash(sql, res, cache_options)` -/
  | cache_for_hash (sql : JSString) (res : Raw) (cache_options : CacheDescriptor)
  /-- `arrowTableToJSON(res)` -/
  | arrowTableToJSON (res : Raw)
  deriving DecidableEq, Repr

/-- Lines 127-135. The connection, `cache_for_hash` (imported from
`../cache-duckdb.js`) and `arrowTableToJSON` (imported from `./both.js`) are
parameters: each either returns or throws. The result is the list of calls
made, in order, and what `query` returns or throws. -/
def query {Raw Json : Type} (connection : Option (JSString → Except Err Raw))
    (cache_for_hash : JSString → Raw → CacheDescriptor → Except Err Unit)
    (arrowTableToJSON : Raw → Except Err Json)
    (sql : JSString) (cache_options : Option CacheDescriptor) :
    List (Effect Raw) × Except Err Json :=
  match connection with
  | none => ([], .error .typeError)
  | some conn =>
    match conn sql with
    | .error e => ([.connectionQuery sql], .error e)
    | .ok res =>
      match cache_options with
      | none =>
        ([.connectionQuery sql, .arrowTableToJSON res], arrowTableToJSON res)
      | some d =>
        match cache_for_hash sql res d with
        | .error e => ([.connectionQuery sql, .cache_for_hash sql res d], .error e)
        | .ok _ =>
          ([.connectionQuery sql, .cache_for_hash sql res d, .arrowTableToJSON res],
            arrowTableToJSON res)

/-! ## Reference definitions, written from the specification -/

/-- The result of a bring-up whose `createDuckDB` resolved, from what
`db.instantiate()`, `db.open` and `db.connect` do: rejected with the first
value thrown, fulfilled when nothing is thrown. -/
def bringUpOutcome (r openR connectR : Option Nat) : Promise :=
  match r, openR, connectR with
  | some id, _, _ => Promise.rejected (Err.thrown id)
  | none, some id, _ => Promise.rejected (Err.thrown id)
  | none, none, some id => Promise.rejected (Err.thrown id)
  | none, none, none => Promise.fulfilled

/-- The final `/`-separated segment of a location: its longest suffix without
a `/`. -/
def finalSegment (url : JSString) : JSString :=
  (url.reverse.takeWhile (fun c => decide (c ≠ 47))).reverse

/-- The view name the specification asks for: the final segment without its
last eight code units. -/
def viewName (url : JSString) : JSString :=
  (finalSegment url).take ((finalSegment url).length - 8)

/-- The requests for one file location: register the file, then create the view. -/
def locationRequests (source url : JSString) : List Request :=
  [ Request.registerFileURL (viewName url ++ js ".parquet") (js "./static" ++ url)
      DuckDBDataProtocol.NODE_FS false,
    Request.query (js "CREATE OR REPLACE VIEW " ++ source ++ js "." ++ viewName url ++
      js " AS SELECT * FROM read_parquet('" ++ (viewName url ++ js ".parquet") ++ js "');") ]

/-- The requests for one source: create the schema, then its locations in order. -/
def sourceRequests (entry : JSString × List JSString) : List Request :=
  Request.query (js "CREATE SCHEMA IF NOT EXISTS " ++ entry.1 ++ js ";") ::
    entry.2.flatMap (locationRequests entry.1)

/-- The requests for a whole mapping, source by source. -/
def mappingRequests (urls : List (JSString × List JSString)) : List Request :=
  urls.flatMap sourceRequests

/-- A schema-creation request. -/
def isSchemaRequest : Request → Bool
  | .query sql => (js "CREATE SCHEMA IF NOT EXISTS ").isPrefixOf sql
  | _ => false

/-- A view-creation request. -/
def isViewRequest : Request → Bool
  | .query sql => (js "CREATE OR REPLACE VIEW ").isPrefixOf sql
  | _ => false

/-- A file-registration request. -/
def isRegisterRequest : Request → Bool
  | .registerFileURL _ _ _ _ => true
  | _ => false

/-- Sequential execution of a list of requests, stopping at the first one
that throws. -/
def runRequests (m : Module) (eng : Engine) :
    List Request → List Request → List Request × Option Err
  | [], log => (log, none)
  | q :: qs, log =>
    match call m eng log q with
    | (log1, some e) => (log1, some e)
    | (log1, none) => runRequests m eng qs log1

/-- Every request of the list returns when the list is executed in order
starting from the history `log`. -/
def AllSucceed (m : Module) (eng : Engine) (log : List Request) (reqs : List Request) : Prop :=
  ∀ pre q post, reqs = pre ++ q :: post → (call m eng (log ++ pre) q).2 = none


/-! ## Invariant of the event loop -/

/-- What holds of every call of `initDB` after the first one: it is not inside
the bring-up, it saw `initializing` set, and it either returned at once on a
set `db`, or it raced on `initPromise` and its outcome is the state of
`initPromise` or the rejection of its own timer. -/
def FollowerOk (p : Promise) (c : Call) : Prop :=
  c.pc = Pc.finished ∧ c.sawInitializing = true ∧
    ((c.path = Path.returned ∧ c.sawDb = true ∧ c.outcome = Promise.fulfilled) ∨
      (c.path = Path.wait ∧ c.sawDb = false ∧
        (c.outcome = p ∨ c.outcome = Promise.rejected Err.timeout)))

/-- What holds of the first call of `initDB`: it is the bring-up, and the
counters follow its progress. -/
def LeaderOk (w : World) (c : Call) : Prop :=
  c.path = Path.bringUp ∧ c.sawDb = false ∧ c.sawInitializing = false ∧
    (c.pc = Pc.atCreateDuckDB →
      c.outcome = Promise.pending ∧ w.m.db = false ∧ w.instantiateCalls = 0 ∧
        w.openCalls = 0 ∧ w.connectCalls = 0) ∧
    (c.pc = Pc.atInstantiate →
      c.outcome = Promise.pending ∧ w.m.db = true ∧ w.instantiateCalls = 1 ∧
        w.openCalls = 0 ∧ w.connectCalls = 0) ∧
    (c.pc = Pc.finished →
      w.instantiateCalls ≤ 1 ∧ w.openCalls ≤ 1 ∧ w.connectCalls ≤ 1)

/-- A fulfilled `initPromise` comes from a `setParquetURLs` call that was
fulfilled after delivering every request of its mapping. -/
def RegistrationOk (w : World) : Prop :=
  w.m.initPromise = Promise.fulfilled →
    ∃ r ∈ w.registrations, r.outcome = Promise.fulfilled ∧
      r.delivered = mappingRequests r.urls

/-- The invariant: either `initDB` was never called and nothing was brought
up, or the first call is the one bring-up and all the others are followers. -/
def Inv (w : World) : Prop :=
  RegistrationOk w ∧
    ((w.calls = [] ∧ w.m.initializing = false ∧ w.m.db = false ∧
        w.createDuckDBCalls = 0 ∧ w.instantiateCalls = 0 ∧ w.openCalls = 0 ∧
        w.connectCalls = 0) ∨
      (∃ c0 rest, w.calls = c0 :: rest ∧ w.m.initializing = true ∧
        w.createDuckDBCalls = 1 ∧ LeaderOk w c0 ∧
        ∀ c ∈ rest, FollowerOk w.m.initPromise c))

/-! ## Sample inputs -/

/-- A module whose bring-up has completed. -/
def connectedModule : Module :=
  { db := true, connection := true, initializing := true, initPromise := .pending }

/-- An engine on which every request returns. -/
def acceptAll : Engine := fun _ _ => none

/-- An engine that throws on the third request it receives. -/
def refuseThird : Engine := fun log _ => if log.length = 2 then some 5 else none

/-- The mapping `{ "sales": ["/data/2024.parquet"] }`. -/
def salesMapping : List (JSString × List JSString) :=
  [(js "sales", [js "/data/2024.parquet"])]

/-- An engine that throws on the statement `garbage` and on nothing else. -/
def rejectsGarbage : Engine :=
  fun _ q => if q = Request.query (js "garbage") then some 1 else none

/-- Three `initDB` calls while `createDuckDB` is pending, a successful
bring-up, and a fourth call afterwards. -/
def threeCallersThenLate : List Event :=
  [.initDB, .initDB, .initDB, .createDuckDBSettles 0 none,
    .instantiateSettles 0 none none none, .initDB]

/-! ## Strings: `split`, `at`, `slice` -/

theorem split_ne_nil (sep : Nat) (s : JSString) : split sep s ≠ [] := by
  cases s with
  | nil => simp [split]
  | cons c cs =>
    simp only [split]
    split_ifs
    · simp
    · cases split sep cs <;> simp

theorem arrayAt_neg_one {α : Type} (xs : List α) : arrayAt xs (-1) = xs.getLast? := by
  cases xs using List.reverseRecOn with
  | nil => simp [arrayAt]
  | append_singleton ys y =>
    simp only [arrayAt, List.length_append, List.length_singleton]
    have h1 : ((-1 : Int) < 0) := by decide
    simp only [h1, if_true]
    have h2 : ((↑(ys.length + 1) : Int) + -1) = (ys.length : Int) := by push_cast; ring
    rw [h2]
    simp [List.getLast?_append]

theorem slice_zero_neg (s : JSString) (k : Nat) (hk : 0 < k) :
    slice s 0 (-(k : Int)) = s.take (s.length - k) := by
  have h1 : (-(k : Int)) < 0 := by omega
  simp only [slice, h1, if_true, lt_irrefl, if_false]
  have h2 : (min (0 : Int) (s.length : Int)) = 0 := by omega
  rw [h2]
  have h3 : (max ((s.length : Int) + -(k : Int)) 0).toNat = s.length - k := by omega
  rw [h3]
  simp

theorem split_of_not_mem (sep : Nat) (seg : JSString) (h : sep ∉ seg) :
    split sep seg = [seg] := by
  induction seg with
  | nil => rfl
  | cons c cs ih =>
    have hc : c ≠ sep := fun e => h (by simp [e])
    have hcs : sep ∉ cs := fun e => h (by simp [e])
    simp [split, hc, ih hcs]

theorem split_getLast_cons (sep c : Nat) (cs : JSString) :
    (split sep (c :: cs)).getLast? =
      if c = sep then (split sep cs).getLast?
      else if (split sep cs).length = 1 then ((split sep cs).getLast?).map (c :: ·)
      else (split sep cs).getLast? := by
  simp only [split]
  by_cases hc : c = sep
  · simp only [hc, if_true]
    rcases hs : split sep cs with _ | ⟨seg, segs⟩
    · exact absurd hs (split_ne_nil _ _)
    · simp [List.getLast?_cons_cons]
  · simp only [hc, if_false]
    rcases hs : split sep cs with _ | ⟨seg, segs⟩
    · exact absurd hs (split_ne_nil _ _)
    · cases segs with
      | nil => simp
      | cons t ts => simp [List.getLast?_cons_cons]

theorem two_le_length_split (sep : Nat) (seg : JSString) (h : sep ∉ seg) (p : JSString) :
    2 ≤ (split sep (p ++ sep :: seg)).length := by
  induction p with
  | nil => simp [split, split_of_not_mem sep seg h]
  | cons d ds ihd =>
    simp only [List.cons_append, split]
    split_ifs
    · simp; omega
    · rcases hs : split sep (ds ++ sep :: seg) with _ | ⟨seg1, segs⟩
      · exact absurd hs (split_ne_nil _ _)
      · rw [hs] at ihd; simpa using ihd

theorem split_getLast_append (sep : Nat) (pre seg : JSString) (h : sep ∉ seg) :
    (split sep (pre ++ sep :: seg)).getLast? = some seg := by
  induction pre with
  | nil =>
    simp only [List.nil_append, split, if_true, split_of_not_mem sep seg h]
    rfl
  | cons c cs ih =>
    rw [List.cons_append, split_getLast_cons]
    have := two_le_length_split sep seg h cs
    split_ifs with h1 h2
    · exact ih
    · omega
    · exact ih

/-- Every string is its final segment, or a prefix, a separator and its
final segment. -/
theorem exists_final_segment (sep : Nat) (url : JSString) :
    ∃ seg, sep ∉ seg ∧ (url = seg ∨ ∃ pre, url = pre ++ sep :: seg) := by
  induction url with
  | nil => exact ⟨[], by simp, Or.inl rfl⟩
  | cons c cs ih =>
    obtain ⟨seg, hseg, h⟩ := ih
    rcases h with h | ⟨pre, h⟩
    · by_cases hc : c = sep
      · exact ⟨seg, hseg, Or.inr ⟨[], by simp [hc, h]⟩⟩
      · refine ⟨c :: seg, ?_, Or.inl (by rw [h])⟩
        simp only [List.mem_cons, not_or]
        exact ⟨fun e => hc e.symm, hseg⟩
    · exact ⟨seg, hseg, Or.inr ⟨c :: pre, by simp [h]⟩⟩

theorem finalSegment_of_not_mem (seg : JSString) (h : 47 ∉ seg) : finalSegment seg = seg := by
  unfold finalSegment
  rw [List.takeWhile_eq_self_iff.mpr, List.reverse_reverse]
  intro c hc
  have : c ≠ 47 := fun e => h (by simpa [e] using hc)
  simpa using this

theorem finalSegment_append (pre seg : JSString) (h : 47 ∉ seg) :
    finalSegment (pre ++ 47 :: seg) = seg := by
  unfold finalSegment
  have hrev : (pre ++ 47 :: seg).reverse = seg.reverse ++ 47 :: pre.reverse := by simp
  rw [hrev, List.takeWhile_append_of_pos, List.takeWhile_cons_of_neg (by simp)]
  · simp
  · intro c hc
    have : c ≠ 47 := fun e => h (by simpa [e] using hc)
    simpa using this

/-- The final segment has no separator, and the string is the final segment
alone or a prefix, a separator and the final segment. -/
theorem finalSegment_spec (url : JSString) :
    47 ∉ finalSegment url ∧
      (url = finalSegment url ∨ ∃ pre, url = pre ++ 47 :: finalSegment url) := by
  obtain ⟨seg, hseg, h⟩ := exists_final_segment 47 url
  rcases h with h | ⟨pre, h⟩
  · rw [h, finalSegment_of_not_mem seg hseg]
    exact ⟨hseg, Or.inl rfl⟩
  · rw [h, finalSegment_append pre seg hseg]
    exact ⟨hseg, Or.inr ⟨pre, rfl⟩⟩

theorem split_getLast_eq_finalSegment (url : JSString) :
    (split 47 url).getLast? = some (finalSegment url) := by
  obtain ⟨seg, hseg, h⟩ := exists_final_segment 47 url
  rcases h with h | ⟨pre, h⟩
  · rw [h, finalSegment_of_not_mem seg hseg, split_of_not_mem 47 seg hseg]
    rfl
  · rw [h, finalSegment_append pre seg hseg, split_getLast_append 47 pre seg hseg]

theorem table_eq_viewName (url : JSString) : table url = some (viewName url) := by
  have h8 : ((js ".parquet").length : Int) = ((8 : Nat) : Int) := by decide
  unfold table viewName
  rw [arrayAt_neg_one, split_getLast_eq_finalSegment, h8, Option.map_some',
    slice_zero_neg _ 8 (by decide)]

theorem parquet_length : (js ".parquet").length = 8 := by decide

theorem finalSegment_eq_nil_of_getLast (url : JSString) (h : url.getLast? = some 47) :
    finalSegment url = [] := by
  cases url using List.reverseRecOn with
  | nil => simp at h
  | append_singleton ys y =>
    have hy : y = 47 := by simpa using h
    subst hy
    unfold finalSegment
    simp

/-! ## View names -/

/-- C6. When the final `/`-separated segment of a location is `stem` followed
by `.parquet`, the view name computed on line 105 is `stem`: the registered
file name `stem.parquet` is the final segment, `stem` has no `/`, and every
location with the same final segment gets the same name. -/
theorem view_name_of_parquet_location (url stem : JSString)
    (h : finalSegment url = stem ++ js ".parquet") :
    table url = some stem ∧ file_name stem = finalSegment url ∧ 47 ∉ stem ∧
      ∀ other, finalSegment other = finalSegment url → table other = some stem := by
  have key : ∀ u, finalSegment u = stem ++ js ".parquet" → table u = some stem := by
    intro u hu
    rw [table_eq_viewName, viewName, hu]
    simp [parquet_length]
  refine ⟨key url h, by rw [h]; rfl, ?_, fun other ho => key other (ho.trans h)⟩
  intro hmem
  have := (finalSegment_spec url).1
  rw [h] at this
  exact this (List.mem_append_left _ hmem)

/-- Witness for C6 at `/data/2024.parquet`. -/
theorem view_name_of_parquet_location_witness :
    table (js "/data/2024.parquet") = some (js "2024") ∧
      file_name (js "2024") = finalSegment (js "/data/2024.parquet") ∧
      47 ∉ js "2024" ∧
      ∀ other, finalSegment other = finalSegment (js "/data/2024.parquet") →
        table other = some (js "2024") :=
  view_name_of_parquet_location (js "/data/2024.parquet") (js "2024") (by decide)

/-- C10. For every location the view name computed on line 105 is the final
`/`-separated segment without its last eight code units, whatever they are;
it is empty when that segment has at most eight code units, in particular
when the location ends in `/`; and when the final segment does not end in
`.parquet`, the registered file name differs from the final segment. -/
theorem view_name_is_positional (url : JSString) :
    table url = some ((finalSegment url).take ((finalSegment url).length - 8)) ∧
      ((finalSegment url).length ≤ 8 → table url = some []) ∧
      (url.getLast? = some 47 → table url = some []) ∧
      (¬ js ".parquet" <:+ finalSegment url →
        ∀ t, table url = some t → file_name t ≠ finalSegment url) := by
  have ht := table_eq_viewName url
  refine ⟨ht, ?_, ?_, ?_⟩
  · intro hlen
    rw [ht, viewName, Nat.sub_eq_zero_of_le hlen, List.take_zero]
  · intro hlast
    rw [ht, viewName, finalSegment_eq_nil_of_getLast url hlast]
    rfl
  · intro hsuf t _ heq
    exact hsuf ⟨t, heq⟩

/-! ## Registration -/

theorem isViewRequest_schema (src : JSString) :
    isViewRequest (.query (schemaSQL src)) = false := rfl

theorem isSchemaRequest_view (src t f : JSString) :
    isSchemaRequest (.query (viewSQL src t f)) = false := rfl

theorem isSchemaRequest_schema (src : JSString) :
    isSchemaRequest (.query (schemaSQL src)) = true := by
  simp only [isSchemaRequest, schemaSQL, List.isPrefixOf_iff_prefix, List.append_assoc]
  exact List.prefix_append _ _

theorem isViewRequest_view (src t f : JSString) :
    isViewRequest (.query (viewSQL src t f)) = true := by
  simp only [isViewRequest, viewSQL, List.isPrefixOf_iff_prefix, List.append_assoc]
  exact List.prefix_append _ _

theorem call_fst_of_none (m : Module) (eng : Engine) (log : List Request) (q : Request)
    (h : (call m eng log q).2 = none) : (call m eng log q).1 = log ++ [q] := by
  unfold call at h ⊢
  split_ifs with hr
  · rfl
  · rw [if_neg hr] at h; simp at h

theorem call_fst (m : Module) (eng : Engine) (log : List Request) (q : Request) :
    (call m eng log q).1 = log ++ (if receiverDefined m q then [q] else []) := by
  unfold call
  split_ifs <;> simp

theorem runRequests_append (m : Module) (eng : Engine) (a b log : List Request) :
    runRequests m eng (a ++ b) log =
      match runRequests m eng a log with
      | (log1, some e) => (log1, some e)
      | (log1, none) => runRequests m eng b log1 := by
  induction a generalizing log with
  | nil => simp [runRequests]
  | cons q qs ih =>
    simp only [List.cons_append, runRequests]
    rcases call m eng log q with ⟨l1, _ | e⟩
    · simpa using ih l1
    · simp

theorem forUrls_eq_runRequests (m : Module) (eng : Engine) (source : JSString)
    (locations : List JSString) (log : List Request) :
    forUrls m eng source locations log =
      runRequests m eng (locations.flatMap (locationRequests source)) log := by
  induction locations generalizing log with
  | nil => simp [forUrls, runRequests]
  | cons url rest ih =>
    simp only [forUrls, table_eq_viewName, List.flatMap_cons, locationRequests,
      List.cons_append, List.nil_append, runRequests, file_name, viewSQL]
    rcases call m eng log _ with ⟨l1, _ | e⟩
    · simp only
      rcases call m eng l1 _ with ⟨l2, _ | e⟩
      · simpa using ih l2
      · simp
    · simp

theorem forSources_eq_runRequests (m : Module) (eng : Engine)
    (urls : List (JSString × List JSString)) (log : List Request) :
    forSources m eng urls log = runRequests m eng (mappingRequests urls) log := by
  induction urls generalizing log with
  | nil => simp [forSources, runRequests, mappingRequests]
  | cons entry rest ih =>
    obtain ⟨source, locations⟩ := entry
    have hm : mappingRequests ((source, locations) :: rest) =
        Request.query (schemaSQL source) ::
          (locations.flatMap (locationRequests source) ++ mappingRequests rest) := rfl
    rw [hm]
    simp only [forSources, runRequests]
    rcases call m eng log _ with ⟨l1, _ | e⟩
    · simp only
      rw [runRequests_append, forUrls_eq_runRequests]
      rcases runRequests m eng _ l1 with ⟨l2, _ | e⟩
      · simpa using ih l2
      · simp
    · simp

theorem allSucceed_nil (m : Module) (eng : Engine) (log : List Request) :
    AllSucceed m eng log [] := by
  intro pre q post h
  simp at h

theorem allSucceed_cons (m : Module) (eng : Engine) (log : List Request) (q : Request)
    (qs : List Request) :
    AllSucceed m eng log (q :: qs) ↔
      (call m eng log q).2 = none ∧ AllSucceed m eng (log ++ [q]) qs := by
  constructor
  · intro h
    refine ⟨by simpa using h [] q qs rfl, ?_⟩
    intro pre r post hr
    have := h (q :: pre) r post (by simp [hr])
    simpa using this
  · rintro ⟨h1, h2⟩ pre r post hr
    cases pre with
    | nil =>
      simp only [List.nil_append, List.cons.injEq] at hr
      obtain ⟨rfl, -⟩ := hr
      simpa using h1
    | cons p ps =>
      simp only [List.cons_append, List.cons.injEq] at hr
      obtain ⟨rfl, hr⟩ := hr
      have := h2 ps r post hr
      simpa using this

theorem runRequests_of_allSucceed (m : Module) (eng : Engine) (reqs log : List Request)
    (h : AllSucceed m eng log reqs) : runRequests m eng reqs log = (log ++ reqs, none) := by
  induction reqs generalizing log with
  | nil => simp [runRequests]
  | cons q qs ih =>
    rw [allSucceed_cons] at h
    have h1 := call_fst_of_none m eng log q h.1
    have hc : call m eng log q = (log ++ [q], none) := Prod.ext h1 h.1
    simp only [runRequests, hc]
    rw [ih _ h.2]
    simp

theorem allSucceed_of_runRequests (m : Module) (eng : Engine) (reqs log : List Request)
    (h : (runRequests m eng reqs log).2 = none) : AllSucceed m eng log reqs := by
  induction reqs generalizing log with
  | nil => exact allSucceed_nil m eng log
  | cons q qs ih =>
    rw [allSucceed_cons]
    simp only [runRequests] at h
    rcases hc : call m eng log q with ⟨l1, _ | e⟩
    · rw [hc] at h
      have h1 := call_fst_of_none m eng log q (by rw [hc])
      rw [hc] at h1
      simp only at h h1
      subst h1
      exact ⟨rfl, ih _ h⟩
    · rw [hc] at h
      simp at h

theorem runRequests_first_failure (m : Module) (eng : Engine) (log pre : List Request)
    (q : Request) (post : List Request) (e : Err) (hpre : AllSucceed m eng log pre)
    (hq : (call m eng (log ++ pre) q).2 = some e) :
    runRequests m eng (pre ++ q :: post) log = ((call m eng (log ++ pre) q).1, some e) := by
  rw [runRequests_append, runRequests_of_allSucceed m eng pre log hpre]
  simp only [runRequests]
  rcases hc : call m eng (log ++ pre) q with ⟨l1, _ | e1⟩
  · rw [hc] at hq; simp at hq
  · rw [hc] at hq
    simp only [Option.some.injEq] at hq
    subst hq
    rfl

/-- C4. With the shared promise still pending, `setParquetURLs` fulfils it
exactly when every request of the whole mapping returns; when a request
throws `e` after all the earlier ones returned, nothing is sent after it,
the shared promise is rejected with `e` and the call itself rejects with `e`. -/
theorem registration_settles_shared_outcome (m : Module) (eng : Engine)
    (urls : List (JSString × List JSString)) (log : List Request)
    (hp : m.initPromise = Promise.pending) :
    ((setParquetURLs m eng urls log).m.initPromise = Promise.fulfilled ↔
        AllSucceed m eng log (mappingRequests urls)) ∧
      ∀ pre q post e, mappingRequests urls = pre ++ q :: post →
        AllSucceed m eng log pre → (call m eng (log ++ pre) q).2 = some e →
        (setParquetURLs m eng urls log).log =
            log ++ pre ++ (if receiverDefined m q then [q] else []) ∧
          (setParquetURLs m eng urls log).m.initPromise = Promise.rejected e ∧
          (setParquetURLs m eng urls log).outcome = Promise.rejected e := by
  constructor
  · constructor
    · intro h
      apply allSucceed_of_runRequests
      rw [← forSources_eq_runRequests]
      unfold setParquetURLs at h
      rcases hf : forSources m eng urls log with ⟨l1, _ | e⟩
      · rfl
      · rw [hf] at h
        simp [rejectInit, hp] at h
    · intro h
      unfold setParquetURLs
      rw [forSources_eq_runRequests, runRequests_of_allSucceed _ _ _ _ h]
      simp [resolveInit, hp]
  · intro pre q post e hsplit hpre hq
    unfold setParquetURLs
    rw [forSources_eq_runRequests, hsplit, runRequests_first_failure m eng log pre q post e hpre hq]
    simp [rejectInit, hp, call_fst]

/-- Witness for C4: a connected module, an engine that refuses the third
request, the mapping `sales ↦ [/data/2024.parquet]`. The view statement
throws, nothing follows it, and both promises are rejected with its error. -/
theorem registration_settles_shared_outcome_witness :
    connectedModule.initPromise = Promise.pending ∧
      (setParquetURLs connectedModule refuseThird salesMapping []).log =
        [Request.query (js "CREATE SCHEMA IF NOT EXISTS sales;"),
          Request.registerFileURL (js "2024.parquet") (js "./static/data/2024.parquet")
            DuckDBDataProtocol.NODE_FS false,
          Request.query (js
            "CREATE OR REPLACE VIEW sales.2024 AS SELECT * FROM read_parquet('2024.parquet');")] ∧
      (setParquetURLs connectedModule refuseThird salesMapping []).m.initPromise =
        Promise.rejected (Err.thrown 5) ∧
      (setParquetURLs connectedModule refuseThird salesMapping []).outcome =
        Promise.rejected (Err.thrown 5) :=
  ⟨rfl,
    (registration_settles_shared_outcome connectedModule refuseThird salesMapping [] rfl).2
      [Request.query (js "CREATE SCHEMA IF NOT EXISTS sales;"),
        Request.registerFileURL (js "2024.parquet") (js "./static/data/2024.parquet")
          DuckDBDataProtocol.NODE_FS false]
      (Request.query (js
        "CREATE OR REPLACE VIEW sales.2024 AS SELECT * FROM read_parquet('2024.parquet');"))
      [] (Err.thrown 5) (by decide)
      (allSucceed_of_runRequests _ _ _ _ (by decide)) (by decide)⟩

theorem countP_locationRequests (source url : JSString) :
    (locationRequests source url).countP isSchemaRequest = 0 ∧
      (locationRequests source url).countP isViewRequest = 1 ∧
      (locationRequests source url).countP isRegisterRequest = 1 := by
  have hv := isViewRequest_view source (viewName url) (viewName url ++ js ".parquet")
  have hs := isSchemaRequest_view source (viewName url) (viewName url ++ js ".parquet")
  unfold viewSQL at hv hs
  refine ⟨?_, ?_, ?_⟩
  · simp only [locationRequests, List.countP_cons, List.countP_nil, hs]
    rfl
  · simp only [locationRequests, List.countP_cons, List.countP_nil, hv]
    rfl
  · rfl

theorem countP_flatMap_locationRequests (source : JSString) (locations : List JSString) :
    (locations.flatMap (locationRequests source)).countP isSchemaRequest = 0 ∧
      (locations.flatMap (locationRequests source)).countP isViewRequest = locations.length ∧
      (locations.flatMap (locationRequests source)).countP isRegisterRequest =
        locations.length := by
  induction locations with
  | nil => simp
  | cons url rest ih =>
    obtain ⟨h1, h2, h3⟩ := countP_locationRequests source url
    obtain ⟨i1, i2, i3⟩ := ih
    simp only [List.flatMap_cons, List.countP_append, List.length_cons]
    omega

theorem countP_mappingRequests (urls : List (JSString × List JSString)) :
    (mappingRequests urls).countP isSchemaRequest = urls.length ∧
      (mappingRequests urls).countP isViewRequest =
        (urls.map (fun entry => entry.2.length)).sum ∧
      (mappingRequests urls).countP isRegisterRequest =
        (urls.map (fun entry => entry.2.length)).sum := by
  induction urls with
  | nil => simp [mappingRequests]
  | cons entry rest ih =>
    obtain ⟨source, locations⟩ := entry
    have hm : mappingRequests ((source, locations) :: rest) =
        Request.query (schemaSQL source) ::
          (locations.flatMap (locationRequests source) ++ mappingRequests rest) := rfl
    obtain ⟨h1, h2, h3⟩ := countP_flatMap_locationRequests source locations
    obtain ⟨i1, i2, i3⟩ := ih
    rw [hm]
    simp only [List.countP_cons, List.countP_append, isSchemaRequest_schema,
      isViewRequest_schema, isRegisterRequest, List.length_cons, List.map_cons, List.sum_cons,
      if_true, Bool.false_eq_true, if_false]
    omega

theorem length_mappingRequests (urls : List (JSString × List JSString)) :
    (mappingRequests urls).length =
      urls.length + 2 * (urls.map (fun entry => entry.2.length)).sum := by
  induction urls with
  | nil => simp [mappingRequests]
  | cons entry rest ih =>
    obtain ⟨source, locations⟩ := entry
    have hm : mappingRequests ((source, locations) :: rest) =
        Request.query (schemaSQL source) ::
          (locations.flatMap (locationRequests source) ++ mappingRequests rest) := rfl
    have hl : (locations.flatMap (locationRequests source)).length = 2 * locations.length := by
      clear hm ih
      induction locations with
      | nil => simp
      | cons u us ihu =>
        simp only [List.flatMap_cons, List.length_append, ihu, locationRequests,
          List.length_cons, List.length_nil]
        omega
    rw [hm]
    simp only [List.length_cons, List.length_append, hl, ih, List.map_cons, List.sum_cons]
    omega

/-- C7. When no request of the run throws, that is when every request of the
mapping returns as it is executed in order, `setParquetURLs` delivers
exactly the requests of the mapping: per source, in order, one schema
statement and then per location, in order, one file registration and one view
statement. There are as many schema statements as sources, as many
registrations and as many view statements as locations, nothing else is
delivered, and the call is fulfilled. The engine may refuse any request
that the run does not send. -/
theorem registration_request_trace (m : Module) (eng : Engine)
    (urls : List (JSString × List JSString)) (log : List Request)
    (hall : AllSucceed m eng log (mappingRequests urls)) :
    (setParquetURLs m eng urls log).log = log ++ mappingRequests urls ∧
      (setParquetURLs m eng urls log).outcome = Promise.fulfilled ∧
      (mappingRequests urls).countP isSchemaRequest = urls.length ∧
      (mappingRequests urls).countP isViewRequest =
        (urls.map (fun entry => entry.2.length)).sum ∧
      (mappingRequests urls).countP isRegisterRequest =
        (urls.map (fun entry => entry.2.length)).sum ∧
      (mappingRequests urls).length =
        urls.length + 2 * (urls.map (fun entry => entry.2.length)).sum := by
  obtain ⟨c1, c2, c3⟩ := countP_mappingRequests urls
  refine ⟨?_, ?_, c1, c2, c3, length_mappingRequests urls⟩
  · unfold setParquetURLs
    rw [forSources_eq_runRequests, runRequests_of_allSucceed _ _ _ _ hall]
  · unfold setParquetURLs
    rw [forSources_eq_runRequests, runRequests_of_allSucceed _ _ _ _ hall]

/-- Witness for C7: the connected module, an engine that refuses only the
statement `garbage`, the mapping `sales ↦ [/data/2024.parquet]`. -/
theorem registration_request_trace_witness :
    AllSucceed connectedModule rejectsGarbage [] (mappingRequests salesMapping) ∧
      rejectsGarbage [] (Request.query (js "garbage")) = some 1 ∧
      (setParquetURLs connectedModule rejectsGarbage salesMapping []).log =
        [Request.query (js "CREATE SCHEMA IF NOT EXISTS sales;"),
          Request.registerFileURL (js "2024.parquet") (js "./static/data/2024.parquet")
            DuckDBDataProtocol.NODE_FS false,
          Request.query (js
            "CREATE OR REPLACE VIEW sales.2024 AS SELECT * FROM read_parquet('2024.parquet');")] ∧
      (setParquetURLs connectedModule rejectsGarbage salesMapping []).outcome =
        Promise.fulfilled :=
  ⟨allSucceed_of_runRequests _ _ _ _ (by decide), by decide,
    (registration_request_trace connectedModule rejectsGarbage salesMapping []
      (allSucceed_of_runRequests _ _ _ _ (by decide))).1.trans (by decide),
    (registration_request_trace connectedModule rejectsGarbage salesMapping []
      (allSucceed_of_runRequests _ _ _ _ (by decide))).2.1⟩

/-! ## The event loop -/

theorem rejectInit_fields (m : Module) (e : Err) :
    (rejectInit m e).db = m.db ∧ (rejectInit m e).connection = m.connection ∧
      (rejectInit m e).initializing = m.initializing ∧
      ((rejectInit m e).initPromise = m.initPromise ∨
        (m.initPromise = Promise.pending ∧
          (rejectInit m e).initPromise = Promise.rejected e)) := by
  unfold rejectInit
  cases h : m.initPromise <;> simp [h]

theorem resolveInit_fields (m : Module) :
    (resolveInit m).db = m.db ∧ (resolveInit m).connection = m.connection ∧
      (resolveInit m).initializing = m.initializing ∧
      ((resolveInit m).initPromise = m.initPromise ∨
        (m.initPromise = Promise.pending ∧
          (resolveInit m).initPromise = Promise.fulfilled)) := by
  unfold resolveInit
  cases h : m.initPromise <;> simp [h]

theorem settleWaiters_cons_bringUp (p : Promise) (c : Call) (rest : List Call)
    (h : c.path = Path.bringUp) :
    settleWaiters p (c :: rest) = c :: settleWaiters p rest := by
  simp [settleWaiters, h]

/-- Followers stay followers when `initPromise` keeps its state or leaves
`pending`. -/
theorem followerOk_settleWaiters (p q : Promise) (rest : List Call)
    (hpq : q = p ∨ p = Promise.pending)
    (h : ∀ c ∈ rest, FollowerOk p c) : ∀ c ∈ settleWaiters q rest, FollowerOk q c := by
  intro c hc
  simp only [settleWaiters, List.mem_map] at hc
  obtain ⟨d, hd, rfl⟩ := hc
  obtain ⟨h1, h2, h3⟩ := h d hd
  split_ifs with hw
  · refine ⟨h1, h2, ?_⟩
    rcases h3 with ⟨hr, _, _⟩ | ⟨hwt, hs, _⟩
    · rw [hw.1] at hr; cases hr
    · exact Or.inr ⟨hwt, hs, Or.inl rfl⟩
  · refine ⟨h1, h2, ?_⟩
    rcases h3 with h3 | ⟨hwt, hs, ho⟩
    · exact Or.inl h3
    · refine Or.inr ⟨hwt, hs, ?_⟩
      rcases ho with ho | ho
      · rcases hpq with hpq | hpq
        · exact Or.inl (ho.trans hpq.symm)
        · exact absurd ⟨hwt, ho.trans hpq⟩ hw
      · exact Or.inr ho

theorem inv_initial : Inv World.initial := by
  refine ⟨?_, Or.inl ⟨rfl, rfl, rfl, rfl, rfl, rfl, rfl⟩⟩
  intro h
  cases h

theorem initDB_of_db (w : World) (hd : w.m.db = true) :
    initDB w = { w with calls := w.calls ++
      [{ path := .returned, pc := .finished, outcome := .fulfilled,
         sawDb := true, sawInitializing := w.m.initializing }] } := by
  simp [initDB, hd]

theorem initDB_of_initializing (w : World) (hd : w.m.db = false)
    (hi : w.m.initializing = true) :
    initDB w = { w with calls := w.calls ++
      [{ path := .wait, pc := .finished, outcome := w.m.initPromise,
         sawDb := false, sawInitializing := true }] } := by
  simp [initDB, hd, hi]

theorem initDB_of_fresh (w : World) (hd : w.m.db = false) (hi : w.m.initializing = false) :
    initDB w = { w with
      m := { w.m with initializing := true }
      calls := w.calls ++
        [{ path := .bringUp, pc := .atCreateDuckDB, outcome := .pending,
           sawDb := false, sawInitializing := false }]
      createDuckDBCalls := w.createDuckDBCalls + 1 } := by
  simp [initDB, hd, hi]

theorem inv_initDB (w : World) (h : Inv w) : Inv (initDB w) := by
  obtain ⟨hreg, h⟩ := h
  rcases h with ⟨hc, hi, hd, k1, k2, k3, k4⟩ | ⟨c0, rest, hc, hi, k1, hl, hf⟩
  · rw [initDB_of_fresh w hd hi]
    refine ⟨hreg, Or.inr ⟨_, [], by simp only [hc]; rfl, rfl, by simp [k1], ?_, by simp⟩⟩
    simp [LeaderOk, hd, k2, k3, k4]
  · by_cases hd : w.m.db = true
    · rw [initDB_of_db w hd]
      refine ⟨hreg, Or.inr ⟨c0, rest ++ [_], by simp only [hc]; rfl, hi, k1, hl, ?_⟩⟩
      intro c hcm
      rcases List.mem_append.mp hcm with hcm | hcm
      · exact hf c hcm
      · simp only [List.mem_singleton] at hcm
        subst hcm
        exact ⟨rfl, hi, Or.inl ⟨rfl, rfl, rfl⟩⟩
    · have hd1 : w.m.db = false := by simpa using hd
      rw [initDB_of_initializing w hd1 hi]
      refine ⟨hreg, Or.inr ⟨c0, rest ++ [_], by simp only [hc]; rfl, hi, k1, hl, ?_⟩⟩
      intro c hcm
      rcases List.mem_append.mp hcm with hcm | hcm
      · exact hf c hcm
      · simp only [List.mem_singleton] at hcm
        subst hcm
        exact ⟨rfl, rfl, Or.inr ⟨rfl, rfl, Or.inl rfl⟩⟩

theorem inv_catchBlock (w : World) (c0 : Call) (rest : List Call) (e : Err)
    (hreg : RegistrationOk w) (hc : w.calls = c0 :: rest) (hi : w.m.initializing = true)
    (k1 : w.createDuckDBCalls = 1) (hp : c0.path = Path.bringUp) (hs : c0.sawDb = false)
    (hsi : c0.sawInitializing = false)
    (hcnt : w.instantiateCalls ≤ 1 ∧ w.openCalls ≤ 1 ∧ w.connectCalls ≤ 1)
    (hf : ∀ c ∈ rest, FollowerOk w.m.initPromise c) : Inv (catchBlock w 0 c0 e) := by
  obtain ⟨f1, f2, f3, f4⟩ := rejectInit_fields w.m e
  have hcalls : (catchBlock w 0 c0 e).calls =
      { c0 with pc := Pc.finished, outcome := Promise.rejected e } ::
        settleWaiters (rejectInit w.m e).initPromise rest := by
    simp only [catchBlock, hc, List.set_cons_zero]
    exact settleWaiters_cons_bringUp _ _ _ hp
  refine ⟨?_, Or.inr ⟨_, _, hcalls, ?_, k1, ?_, ?_⟩⟩
  · intro hful
    have hful1 : (rejectInit w.m e).initPromise = Promise.fulfilled := hful
    rcases f4 with f4 | ⟨_, f4⟩
    · exact hreg (f4 ▸ hful1)
    · rw [f4] at hful1; cases hful1
  · exact f3.trans hi
  · refine ⟨hp, hs, hsi, ?_, ?_, fun _ => hcnt⟩
    · intro h; cases h
    · intro h; cases h
  · apply followerOk_settleWaiters w.m.initPromise _ rest _ hf
    rcases f4 with f4 | ⟨f4, _⟩
    · exact Or.inl f4
    · exact Or.inr f4

/-- Only the first call can be suspended inside the bring-up. -/
theorem index_of_suspended (w : World) (c0 c : Call) (rest : List Call) (i : Nat)
    (hc : w.calls = c0 :: rest) (hf : ∀ d ∈ rest, FollowerOk w.m.initPromise d)
    (hget : w.calls[i]? = some c) (hpc : c.pc ≠ Pc.finished) : i = 0 ∧ c = c0 := by
  rw [hc] at hget
  cases i with
  | zero => simpa using hget.symm
  | succ k =>
    simp only [List.getElem?_cons_succ] at hget
    have hmem : c ∈ rest := List.getElem?_mem hget
    exact absurd (hf c hmem).1 hpc

theorem inv_afterCreateDuckDB (w : World) (i : Nat) (r : Option Nat) (h : Inv w) :
    Inv (afterCreateDuckDB w i r) := by
  unfold afterCreateDuckDB
  rcases hget : w.calls[i]? with _ | c
  · exact h
  · simp only
    split_ifs with hpc
    · obtain ⟨hreg, h⟩ := h
      rcases h with ⟨hc, _⟩ | ⟨c0, rest, hc, hi, k1, hl, hf⟩
      · rw [hc] at hget; simp at hget
      · obtain ⟨rfl, rfl⟩ := index_of_suspended w c0 c rest i hc hf hget (by rw [hpc]; decide)
        obtain ⟨l1, l2, l3, l4, -, -⟩ := hl
        obtain ⟨-, m1, m2, m3, m4⟩ := l4 hpc
        cases r with
        | some id =>
          exact inv_catchBlock w c rest _ hreg hc hi k1 l1 l2 l3 (by omega) hf
        | none =>
          refine ⟨hreg, Or.inr ⟨{ c with pc := Pc.atInstantiate }, rest, ?_, hi, k1, ?_, hf⟩⟩
          · simp [hc]
          · refine ⟨l1, l2, l3, ?_, ?_, ?_⟩
            · intro h; cases h
            · intro _
              exact ⟨(l4 hpc).1, rfl, by simp [m2], m3, m4⟩
            · intro h; cases h
    · exact h

theorem inv_afterInstantiate (w : World) (i : Nat) (r openR connectR : Option Nat)
    (h : Inv w) : Inv (afterInstantiate w i r openR connectR) := by
  unfold afterInstantiate
  rcases hget : w.calls[i]? with _ | c
  · exact h
  · simp only
    split_ifs with hpc
    · obtain ⟨hreg, h⟩ := h
      rcases h with ⟨hc, _⟩ | ⟨c0, rest, hc, hi, k1, hl, hf⟩
      · rw [hc] at hget; simp at hget
      · obtain ⟨rfl, rfl⟩ := index_of_suspended w c0 c rest i hc hf hget (by rw [hpc]; decide)
        obtain ⟨l1, l2, l3, -, l5, -⟩ := hl
        obtain ⟨-, m1, m2, m3, m4⟩ := l5 hpc
        cases r with
        | some id =>
          exact inv_catchBlock w c rest _ hreg hc hi k1 l1 l2 l3 (by omega) hf
        | none =>
          cases openR with
          | some id =>
            exact inv_catchBlock _ c rest _ hreg hc hi k1 l1 l2 l3
              ⟨by simp [m2], by simp [m3], by simp [m4]⟩ hf
          | none =>
            cases connectR with
            | some id =>
              exact inv_catchBlock _ c rest _ hreg hc hi k1 l1 l2 l3
                ⟨by simp [m2], by simp [m3], by simp [m4]⟩ hf
            | none =>
              refine ⟨hreg, Or.inr ⟨{ c with pc := Pc.finished, outcome := Promise.fulfilled },
                rest, ?_, hi, k1, ?_, hf⟩⟩
              · simp [hc]
              · refine ⟨l1, l2, l3, ?_, ?_, ?_⟩
                · intro h; cases h
                · intro h; cases h
                · intro _
                  exact ⟨by simp [m2], by simp [m3], by simp [m4]⟩
    · exact h

theorem inv_timerFires (w : World) (i : Nat) (h : Inv w) : Inv (timerFires w i) := by
  unfold timerFires
  rcases hget : w.calls[i]? with _ | c
  · exact h
  · simp only
    split_ifs with hw
    · obtain ⟨hreg, h⟩ := h
      rcases h with ⟨hc, _⟩ | ⟨c0, rest, hc, hi, k1, hl, hf⟩
      · rw [hc] at hget; simp at hget
      · rw [hc] at hget
        cases i with
        | zero =>
          simp only [List.getElem?_cons_zero, Option.some.injEq] at hget
          subst hget
          rw [hl.1] at hw
          exact absurd hw.1 (by decide)
        | succ k =>
          simp only [List.getElem?_cons_succ] at hget
          have hmem : c ∈ rest := List.getElem?_mem hget
          obtain ⟨g1, g2, g3⟩ := hf c hmem
          refine ⟨hreg, Or.inr ⟨c0, rest.set k { c with outcome := Promise.rejected Err.timeout },
            ?_, hi, k1, hl, ?_⟩⟩
          · simp [hc]
          · intro d hd
            rcases List.mem_or_eq_of_mem_set hd with hd | hd
            · exact hf d hd
            · subst hd
              exact ⟨g1, g2, Or.inr ⟨hw.1, by
                rcases g3 with ⟨g, _, _⟩ | ⟨_, g, _⟩
                · rw [hw.1] at g; cases g
                · exact g, Or.inr rfl⟩⟩
    · exact h

theorem setParquetURLs_fields (m : Module) (eng : Engine)
    (urls : List (JSString × List JSString)) (log : List Request) :
    (setParquetURLs m eng urls log).m.db = m.db ∧
      (setParquetURLs m eng urls log).m.initializing = m.initializing ∧
      ((setParquetURLs m eng urls log).m.initPromise = m.initPromise ∨
        m.initPromise = Promise.pending) ∧
      ((setParquetURLs m eng urls log).m.initPromise = Promise.fulfilled →
        m.initPromise = Promise.fulfilled ∨
          ((setParquetURLs m eng urls log).outcome = Promise.fulfilled ∧
            (setParquetURLs m eng urls log).log = log ++ mappingRequests urls)) := by
  unfold setParquetURLs
  rcases hf : forSources m eng urls log with ⟨l1, _ | e⟩
  · obtain ⟨f1, -, f3, f4⟩ := resolveInit_fields m
    refine ⟨f1, f3, ?_, ?_⟩
    · rcases f4 with f4 | ⟨f4, _⟩
      · exact Or.inl f4
      · exact Or.inr f4
    · intro _
      refine Or.inr ⟨rfl, ?_⟩
      have hall : AllSucceed m eng log (mappingRequests urls) := by
        apply allSucceed_of_runRequests
        rw [← forSources_eq_runRequests, hf]
      have := runRequests_of_allSucceed m eng _ log hall
      rw [← forSources_eq_runRequests, hf] at this
      exact congrArg Prod.fst this
  · obtain ⟨f1, -, f3, f4⟩ := rejectInit_fields m e
    refine ⟨f1, f3, ?_, ?_⟩
    · rcases f4 with f4 | ⟨f4, _⟩
      · exact Or.inl f4
      · exact Or.inr f4
    · intro hful
      have hful1 : (rejectInit m e).initPromise = Promise.fulfilled := hful
      rcases f4 with f4 | ⟨_, f4⟩
      · exact Or.inl (f4 ▸ hful1)
      · rw [f4] at hful1; cases hful1

theorem inv_registerViews (w : World) (urls : List (JSString × List JSString))
    (eng : Engine) (h : Inv w) : Inv (registerViews w urls eng) := by
  obtain ⟨hreg, h⟩ := h
  obtain ⟨f1, f2, f3, f4⟩ := setParquetURLs_fields w.m eng urls w.log
  have hreg1 : RegistrationOk (registerViews w urls eng) := by
    intro hful
    rcases f4 hful with hold | ⟨ho, hl⟩
    · obtain ⟨r, hr, hr1, hr2⟩ := hreg hold
      exact ⟨r, List.mem_append_left _ hr, hr1, hr2⟩
    · refine ⟨_, List.mem_append_right _ (List.mem_singleton_self _), ho, ?_⟩
      simp only [hl, List.drop_left]
  refine ⟨hreg1, ?_⟩
  rcases h with ⟨hc, hi, hd, k1, k2, k3, k4⟩ | ⟨c0, rest, hc, hi, k1, hl, hf⟩
  · refine Or.inl ⟨?_, f2.trans hi, f1.trans hd, k1, k2, k3, k4⟩
    simp [registerViews, hc, settleWaiters]
  · refine Or.inr ⟨c0, settleWaiters (setParquetURLs w.m eng urls w.log).m.initPromise rest,
      ?_, f2.trans hi, k1, ?_, ?_⟩
    · simp only [registerViews, hc]
      exact settleWaiters_cons_bringUp _ _ _ hl.1
    · obtain ⟨l1, l2, l3, l4, l5, l6⟩ := hl
      refine ⟨l1, l2, l3, ?_, ?_, l6⟩
      · intro hpc
        obtain ⟨a, b, c⟩ := l4 hpc
        exact ⟨a, f1.trans b, c⟩
      · intro hpc
        obtain ⟨a, b, c⟩ := l5 hpc
        exact ⟨a, f1.trans b, c⟩
    · exact followerOk_settleWaiters w.m.initPromise _ rest f3 hf

theorem inv_step (w : World) (ev : Event) (h : Inv w) : Inv (step w ev) := by
  cases ev with
  | initDB => exact inv_initDB w h
  | createDuckDBSettles i r => exact inv_afterCreateDuckDB w i r h
  | instantiateSettles i r openR connectR => exact inv_afterInstantiate w i r openR connectR h
  | timerFires i => exact inv_timerFires w i h
  | setParquetURLs urls eng => exact inv_registerViews w urls eng h

theorem inv_foldl (evs : List Event) (w : World) (h : Inv w) : Inv (evs.foldl step w) := by
  induction evs generalizing w with
  | nil => exact h
  | cons ev rest ih => exact ih _ (inv_step w ev h)

theorem inv_run (evs : List Event) : Inv (run evs) := inv_foldl evs _ inv_initial

theorem run_append (evs more : List Event) :
    run (evs ++ more) = more.foldl step (run evs) := by
  simp [run, List.foldl_append]

theorem run_snoc (evs : List Event) (ev : Event) :
    run (evs ++ [ev]) = step (run evs) ev := by
  simp [run, List.foldl_append]

theorem lt_length_of_getElem? (l : List Call) (i : Nat) (c : Call) (h : l[i]? = some c) :
    i < l.length := (List.getElem?_eq_some.mp h).1

/-- The reactions on `initPromise` leave a call alone unless it is an open race. -/
theorem getElem?_settleWaiters (p : Promise) (l : List Call) (i : Nat) (c : Call)
    (h : l[i]? = some c) (hs : c.path ≠ Path.wait ∨ c.outcome ≠ Promise.pending) :
    (settleWaiters p l)[i]? = some c := by
  simp only [settleWaiters, List.getElem?_map, h, Option.map_some', Option.some.injEq]
  rw [if_neg]
  rintro ⟨h1, h2⟩
  rcases hs with hs | hs
  · exact hs h1
  · exact hs h2

theorem getElem?_catchBlock_self (w : World) (i : Nat) (c : Call) (e : Err)
    (h : w.calls[i]? = some c) :
    (catchBlock w i c e).calls[i]? =
      some { c with pc := Pc.finished, outcome := Promise.rejected e } := by
  simp only [catchBlock]
  apply getElem?_settleWaiters
  · exact List.getElem?_set_self (lt_length_of_getElem? _ _ _ h)
  · exact Or.inr (by simp)

theorem getElem?_catchBlock_other (w : World) (i j : Nat) (c d : Call) (e : Err)
    (hij : j ≠ i) (h : w.calls[i]? = some c) (hs : c.outcome ≠ Promise.pending) :
    (catchBlock w j d e).calls[i]? = some c := by
  simp only [catchBlock]
  apply getElem?_settleWaiters _ _ _ _ _ (Or.inr hs)
  rw [List.getElem?_set_ne hij]
  exact h

/-- A call suspended inside the bring-up has not settled. -/
theorem pending_of_suspended (w : World) (hinv : Inv w) (j : Nat) (d : Call)
    (hget : w.calls[j]? = some d) (hpc : d.pc ≠ Pc.finished) :
    d.outcome = Promise.pending := by
  obtain ⟨-, h⟩ := hinv
  rcases h with ⟨hc, _⟩ | ⟨c0, rest, hc, hi, k1, hl, hf⟩
  · rw [hc] at hget; simp at hget
  · obtain ⟨-, rfl⟩ := index_of_suspended w c0 d rest j hc hf hget hpc
    obtain ⟨-, -, -, l4, l5, -⟩ := hl
    cases hd : d.pc with
    | atCreateDuckDB => exact (l4 hd).1
    | atInstantiate => exact (l5 hd).1
    | finished => exact absurd hd hpc

/-- One turn of the event loop leaves a settled call as it is. -/
theorem settled_step (w : World) (ev : Event) (i : Nat) (c : Call) (hinv : Inv w)
    (h : w.calls[i]? = some c) (hs : c.outcome ≠ Promise.pending) :
    (step w ev).calls[i]? = some c := by
  have hlt := lt_length_of_getElem? _ _ _ h
  cases ev with
  | initDB =>
    simp only [step]
    by_cases hd : w.m.db = true
    · rw [initDB_of_db w hd]
      simp only
      rw [List.getElem?_append_left hlt, h]
    · have hd1 : w.m.db = false := by simpa using hd
      by_cases hi : w.m.initializing = true
      · rw [initDB_of_initializing w hd1 hi]
        simp only
        rw [List.getElem?_append_left hlt, h]
      · have hi1 : w.m.initializing = false := by simpa using hi
        rw [initDB_of_fresh w hd1 hi1]
        simp only
        rw [List.getElem?_append_left hlt, h]
  | createDuckDBSettles j r =>
    simp only [step, afterCreateDuckDB]
    rcases hget : w.calls[j]? with _ | d
    · exact h
    · simp only
      split_ifs with hpc
      · have hpend := pending_of_suspended w hinv j d hget (by rw [hpc]; decide)
        have hij : j ≠ i := by
          rintro rfl
          rw [hget] at h
          exact hs ((Option.some.inj h) ▸ hpend)
        cases r with
        | some id => exact getElem?_catchBlock_other w i j c d _ hij h hs
        | none =>
          simp only
          rw [List.getElem?_set_ne hij]
          exact h
      · exact h
  | instantiateSettles j r openR connectR =>
    simp only [step, afterInstantiate]
    rcases hget : w.calls[j]? with _ | d
    · exact h
    · simp only
      split_ifs with hpc
      · have hpend := pending_of_suspended w hinv j d hget (by rw [hpc]; decide)
        have hij : j ≠ i := by
          rintro rfl
          rw [hget] at h
          exact hs ((Option.some.inj h) ▸ hpend)
        cases r with
        | some id => exact getElem?_catchBlock_other w i j c d _ hij h hs
        | none =>
          cases openR with
          | some id => exact getElem?_catchBlock_other _ i j c d _ hij h hs
          | none =>
            cases connectR with
            | some id => exact getElem?_catchBlock_other _ i j c d _ hij h hs
            | none =>
              simp only
              rw [List.getElem?_set_ne hij]
              exact h
      · exact h
  | timerFires j =>
    simp only [step, timerFires]
    rcases hget : w.calls[j]? with _ | d
    · exact h
    · simp only
      split_ifs with hw
      · have hij : j ≠ i := by
          rintro rfl
          rw [hget] at h
          exact hs ((Option.some.inj h) ▸ hw.2)
        simp only
        rw [List.getElem?_set_ne hij]
        exact h
      · exact h
  | setParquetURLs urls eng =>
    simp only [step, registerViews]
    exact getElem?_settleWaiters _ _ _ _ h (Or.inr hs)

theorem settled_foldl (more : List Event) (w : World) (i : Nat) (c : Call) (hinv : Inv w)
    (h : w.calls[i]? = some c) (hs : c.outcome ≠ Promise.pending) :
    (more.foldl step w).calls[i]? = some c := by
  induction more generalizing w with
  | nil => exact h
  | cons ev rest ih => exact ih _ (inv_step w ev hinv) (settled_step w ev i c hinv h hs)

/-- The calls that entered the bring-up are as many as the calls of
`createDuckDB`, and there is at most one. -/
theorem bringUp_calls_eq_createDuckDBCalls (evs : List Event) :
    ((run evs).calls.filter (fun c => decide (c.path = Path.bringUp))).length =
        (run evs).createDuckDBCalls ∧ (run evs).createDuckDBCalls ≤ 1 := by
  obtain ⟨-, h⟩ := inv_run evs
  rcases h with ⟨hc, hi, hd, k1, k2, k3, k4⟩ | ⟨c0, rest, hc, hi, k1, hl, hf⟩
  · rw [hc, k1]
    simp
  · have hfilter : rest.filter (fun c => decide (c.path = Path.bringUp)) = [] := by
      rw [List.filter_eq_nil_iff]
      intro c hcm
      rcases (hf c hcm).2.2 with ⟨g, _⟩ | ⟨g, _⟩ <;> simp [g]
    rw [hc, k1, List.filter_cons_of_pos (by simpa using hl.1), hfilter]
    exact ⟨rfl, le_refl 1⟩

/-- C1. Whatever the sequence of `initDB` calls, completions of the bring-up
steps (each succeeding or failing), timer expiries and `setParquetURLs`
calls after the module is loaded: `createDuckDB`, `db.instantiate`,
`db.open` and `db.connect` are each called at most once, the calls that
entered the bring-up are as many as the calls of `createDuckDB`, and every
`initDB` call that found `initializing` set either returned at once on a set
`db` or took the wait path. -/
theorem single_flight_initialization (evs : List Event) :
    (run evs).createDuckDBCalls ≤ 1 ∧ (run evs).instantiateCalls ≤ 1 ∧
      (run evs).openCalls ≤ 1 ∧ (run evs).connectCalls ≤ 1 ∧
      ((run evs).calls.filter (fun c => decide (c.path = Path.bringUp))).length =
        (run evs).createDuckDBCalls ∧
      ∀ c ∈ (run evs).calls, c.sawInitializing = true →
        (c.path = Path.returned ∧ c.sawDb = true) ∨ c.path = Path.wait := by
  obtain ⟨-, h⟩ := inv_run evs
  rcases h with ⟨hc, hi, hd, k1, k2, k3, k4⟩ | ⟨c0, rest, hc, hi, k1, hl, hf⟩
  · rw [hc, k1, k2, k3, k4]
    simp
  · obtain ⟨l1, l2, l3, l4, l5, l6⟩ := hl
    have hcnt : (run evs).instantiateCalls ≤ 1 ∧ (run evs).openCalls ≤ 1 ∧
        (run evs).connectCalls ≤ 1 := by
      cases hpc : c0.pc with
      | atCreateDuckDB => obtain ⟨-, -, a, b, c⟩ := l4 hpc; omega
      | atInstantiate => obtain ⟨-, -, a, b, c⟩ := l5 hpc; omega
      | finished => exact l6 hpc
    have hfilter : rest.filter (fun c => decide (c.path = Path.bringUp)) = [] := by
      rw [List.filter_eq_nil_iff]
      intro c hcm
      rcases (hf c hcm).2.2 with ⟨g, _⟩ | ⟨g, _⟩ <;> simp [g]
    refine ⟨by omega, hcnt.1, hcnt.2.1, hcnt.2.2, ?_, ?_⟩
    · rw [hc, k1, List.filter_cons_of_pos (by simpa using l1), hfilter]
      rfl
    · intro c hcm hsaw
      rw [hc] at hcm
      rcases List.mem_cons.mp hcm with rfl | hcm
      · rw [l3] at hsaw; cases hsaw
      · rcases (hf c hcm).2.2 with ⟨g1, g2, _⟩ | ⟨g1, _⟩
        · exact Or.inl ⟨g1, g2⟩
        · exact Or.inr g1

/-- Witness for C1: three calls while `createDuckDB` is pending, then the
bring-up completes and a fourth call arrives. -/
theorem single_flight_initialization_witness :
    (run threeCallersThenLate).createDuckDBCalls = 1 ∧
      (run threeCallersThenLate).calls.map (fun c => c.path) =
        [Path.bringUp, Path.wait, Path.wait, Path.returned] ∧
      ((run threeCallersThenLate).calls.filter
        (fun c => decide (c.path = Path.bringUp))).length =
          (run threeCallersThenLate).createDuckDBCalls :=
  ⟨by decide, by decide, (single_flight_initialization threeCallersThenLate).2.2.2.2.1⟩

/-- C2, evaluated. When `createDuckDB` rejects with `e`, a later `initDB`
call rejects with `e`. When `createDuckDB` resolves and `db.instantiate()`,
`db.open` or `db.connect` throws `e`, the bring-up call rejects with `e`
and `initPromise` is rejected with `e`, but `db` is already assigned: a
later `initDB` call returns on line 44 and is fulfilled, with no connection. -/
theorem later_call_after_failed_bring_up :
    (run [.initDB, .createDuckDBSettles 0 (some 7), .initDB]).calls.map (fun c => c.outcome) =
        [Promise.rejected (Err.thrown 7), Promise.rejected (Err.thrown 7)] ∧
      (run [.initDB, .createDuckDBSettles 0 none, .instantiateSettles 0 (some 7) none none,
          .initDB]).calls.map (fun c => (c.path, c.outcome)) =
        [(Path.bringUp, Promise.rejected (Err.thrown 7)), (Path.returned, Promise.fulfilled)] ∧
      (run [.initDB, .createDuckDBSettles 0 none, .instantiateSettles 0 none (some 7) none,
          .initDB]).calls.map (fun c => (c.path, c.outcome)) =
        [(Path.bringUp, Promise.rejected (Err.thrown 7)), (Path.returned, Promise.fulfilled)] ∧
      (run [.initDB, .createDuckDBSettles 0 none, .instantiateSettles 0 none none (some 7),
          .initDB]).calls.map (fun c => (c.path, c.outcome)) =
        [(Path.bringUp, Promise.rejected (Err.thrown 7)), (Path.returned, Promise.fulfilled)] ∧
      (run [.initDB, .createDuckDBSettles 0 none, .instantiateSettles 0 (some 7) none none,
          .initDB]).m =
        { db := true, connection := false, initializing := true,
          initPromise := Promise.rejected (Err.thrown 7) } := by
  decide

/-- C3 as stated fails. Three `initDB` calls start before `db` is assigned;
the timer of the second fires during the bring-up, the bring-up succeeds,
and the registration that follows is refused by the engine. The first call
is fulfilled, the second is rejected with the timeout and the third with the
engine's error. -/
theorem concurrent_callers_settle_differently :
    (run [.initDB, .initDB, .initDB, .timerFires 1, .createDuckDBSettles 0 none,
        .instantiateSettles 0 none none none,
        .setParquetURLs salesMapping refuseThird]).calls.map
          (fun c => (c.sawDb, c.path, c.outcome)) =
      [(false, Path.bringUp, Promise.fulfilled),
        (false, Path.wait, Promise.rejected Err.timeout),
        (false, Path.wait, Promise.rejected (Err.thrown 5))] := by
  decide

/-- C3, amended. Of the `initDB` calls started before `db` is assigned, at
most one is the bring-up and all the others take the wait path; a call on
the wait path has the state of `initPromise` as its outcome unless its own
timer rejected it, so any two of them that are settled other than by their
timer are settled alike. The bring-up call settles with the result of its
own bring-up: rejected with what `createDuckDB` rejects with, otherwise
rejected with the first value thrown by `db.instantiate()`, `db.open` or
`db.connect`, otherwise fulfilled; and no `setParquetURLs` call changes it.
A call on the wait path whose race is open when its timer fires is rejected
with the timeout. A settled call never changes. -/
theorem waiters_share_the_init_outcome (evs : List Event) :
    (∀ c ∈ (run evs).calls, c.sawDb = false → c.path = Path.bringUp ∨ c.path = Path.wait) ∧
      ((run evs).calls.filter (fun c => decide (c.path = Path.bringUp))).length ≤ 1 ∧
      (∀ c ∈ (run evs).calls, c.path = Path.wait →
        c.outcome = (run evs).m.initPromise ∨ c.outcome = Promise.rejected Err.timeout) ∧
      (∀ c ∈ (run evs).calls, ∀ d ∈ (run evs).calls,
        c.path = Path.wait → d.path = Path.wait →
        c.outcome ≠ Promise.pending → c.outcome ≠ Promise.rejected Err.timeout →
        d.outcome ≠ Promise.pending → d.outcome ≠ Promise.rejected Err.timeout →
        c.outcome = d.outcome) ∧
      (∀ (i : Nat) (c : Call), (run evs).calls[i]? = some c → c.path = Path.bringUp →
        (∀ urls eng, (run (evs ++ [Event.setParquetURLs urls eng])).calls[i]? = some c) ∧
        (c.pc = Pc.atCreateDuckDB → ∀ id,
          (run (evs ++ [Event.createDuckDBSettles i (some id)])).calls[i]? =
            some { c with pc := Pc.finished, outcome := Promise.rejected (Err.thrown id) }) ∧
        (c.pc = Pc.atCreateDuckDB →
          (run (evs ++ [Event.createDuckDBSettles i none])).calls[i]? =
            some { c with pc := Pc.atInstantiate }) ∧
        (c.pc = Pc.atInstantiate → ∀ r openR connectR,
          (run (evs ++ [Event.instantiateSettles i r openR connectR])).calls[i]? =
            some { c with pc := Pc.finished, outcome := bringUpOutcome r openR connectR }) ∧
        (c.pc ≠ Pc.finished → c.outcome = Promise.pending)) ∧
      (∀ (i : Nat) (c : Call), (run evs).calls[i]? = some c → c.path = Path.wait →
        c.outcome = Promise.pending →
        (run (evs ++ [Event.timerFires i])).calls[i]? =
          some { c with outcome := Promise.rejected Err.timeout }) ∧
      ∀ (i : Nat) (c : Call), (run evs).calls[i]? = some c → c.outcome ≠ Promise.pending →
        ∀ more, (run (evs ++ more)).calls[i]? = some c := by
  have hwait : ∀ c ∈ (run evs).calls, c.path = Path.wait →
      c.outcome = (run evs).m.initPromise ∨ c.outcome = Promise.rejected Err.timeout := by
    obtain ⟨-, h⟩ := inv_run evs
    rcases h with ⟨hc, _⟩ | ⟨c0, rest, hc, hi, k1, hl, hf⟩
    · intro c hcm; rw [hc] at hcm; cases hcm
    · intro c hcm hw
      rw [hc] at hcm
      rcases List.mem_cons.mp hcm with rfl | hcm
      · rw [hl.1] at hw; cases hw
      · rcases (hf c hcm).2.2 with ⟨g, _⟩ | ⟨_, _, g⟩
        · rw [g] at hw; cases hw
        · exact g
  refine ⟨?_, ?_, hwait, ?_, ?_, ?_, ?_⟩
  · obtain ⟨-, h⟩ := inv_run evs
    rcases h with ⟨hc, _⟩ | ⟨c0, rest, hc, hi, k1, hl, hf⟩
    · intro c hcm; rw [hc] at hcm; cases hcm
    · intro c hcm hs
      rw [hc] at hcm
      rcases List.mem_cons.mp hcm with rfl | hcm
      · exact Or.inl hl.1
      · rcases (hf c hcm).2.2 with ⟨_, g, _⟩ | ⟨g, _⟩
        · rw [g] at hs; cases hs
        · exact Or.inr g
  · obtain ⟨h1, h2⟩ := bringUp_calls_eq_createDuckDBCalls evs
    omega
  · intro c hc d hd hcw hdw c1 c2 d1 d2
    rcases hwait c hc hcw with h | h
    · rcases hwait d hd hdw with g | g
      · exact h.trans g.symm
      · exact absurd g d2
    · exact absurd h c2
  · intro i c hget hpath
    have hlt := lt_length_of_getElem? _ _ _ hget
    refine ⟨?_, ?_, ?_, ?_, ?_⟩
    · intro urls eng
      rw [run_snoc]
      simp only [step, registerViews]
      exact getElem?_settleWaiters _ _ _ _ hget (Or.inl (by rw [hpath]; decide))
    · intro hpc id
      rw [run_snoc]
      simp only [step, afterCreateDuckDB, hget, hpc, if_true]
      exact getElem?_catchBlock_self _ i c _ hget
    · intro hpc
      rw [run_snoc]
      simp only [step, afterCreateDuckDB, hget, hpc, if_true]
      exact List.getElem?_set_self hlt
    · intro hpc r openR connectR
      rw [run_snoc]
      simp only [step, afterInstantiate, hget, hpc, if_true]
      cases r with
      | some id => exact getElem?_catchBlock_self _ i c _ hget
      | none =>
        cases openR with
        | some id => exact getElem?_catchBlock_self _ i c _ hget
        | none =>
          cases connectR with
          | some id => exact getElem?_catchBlock_self _ i c _ hget
          | none => exact List.getElem?_set_self hlt
    · exact pending_of_suspended _ (inv_run evs) i c hget
  · intro i c hget hpath hpend
    rw [run_snoc]
    simp only [step, timerFires, hget, hpath, hpend, and_self, if_true]
    exact List.getElem?_set_self (lt_length_of_getElem? _ _ _ hget)
  · intro i c hget hs more
    rw [run_append]
    exact settled_foldl more _ i c (inv_run evs) hget hs

/-- Witness for C3, amended: two waiters and a refused registration; both
waiters are rejected with the engine's error. -/
theorem waiters_share_the_init_outcome_witness :
    (run [.initDB, .initDB, .initDB, .createDuckDBSettles 0 none,
        .instantiateSettles 0 none none none,
        .setParquetURLs salesMapping refuseThird]).calls.map (fun c => c.outcome) =
        [Promise.fulfilled, Promise.rejected (Err.thrown 5), Promise.rejected (Err.thrown 5)] ∧
      ((run [.initDB, .initDB, .initDB, .createDuckDBSettles 0 none,
        .instantiateSettles 0 none none none,
        .setParquetURLs salesMapping refuseThird]).calls.filter
          (fun c => decide (c.path = Path.bringUp))).length ≤ 1 :=
  ⟨by decide, (waiters_share_the_init_outcome _).2.1⟩

/-- C5. At every moment, `initPromise` is fulfilled only if some
`setParquetURLs` call was fulfilled after delivering every request of its
mapping; so an `initDB` call on the wait path, that is one that found
`initializing` set and `db` unset, is fulfilled only then. -/
theorem readiness_includes_registration (evs : List Event) :
    ((run evs).m.initPromise = Promise.fulfilled →
        ∃ r ∈ (run evs).registrations, r.outcome = Promise.fulfilled ∧
          r.delivered = mappingRequests r.urls) ∧
      ∀ c ∈ (run evs).calls,
        (c.path = Path.wait ∨ (c.sawInitializing = true ∧ c.sawDb = false)) →
        c.outcome = Promise.fulfilled →
        ∃ r ∈ (run evs).registrations, r.outcome = Promise.fulfilled ∧
          r.delivered = mappingRequests r.urls := by
  obtain ⟨hreg, h⟩ := inv_run evs
  refine ⟨hreg, ?_⟩
  rcases h with ⟨hc, _⟩ | ⟨c0, rest, hc, hi, k1, hl, hf⟩
  · intro c hcm; rw [hc] at hcm; cases hcm
  · intro c hcm hw hful
    rw [hc] at hcm
    rcases List.mem_cons.mp hcm with rfl | hcm
    · rcases hw with hw | ⟨hw, _⟩
      · rw [hl.1] at hw; cases hw
      · rw [hl.2.2.1] at hw; cases hw
    · rcases (hf c hcm).2.2 with ⟨_, g, _⟩ | ⟨_, _, g⟩
      · rcases hw with hw | ⟨_, hw⟩
        · rcases (hf c hcm).2.2 with ⟨g1, _⟩ | ⟨_, g1, _⟩
          · rw [g1] at hw; cases hw
          · rw [g1] at g; cases g
        · rw [g] at hw; cases hw
      · rcases g with g | g
        · exact hreg (g ▸ hful)
        · rw [g] at hful; cases hful

/-- Witness for C5: a waiter that is fulfilled by a complete registration. -/
theorem readiness_includes_registration_witness :
    (run [.initDB, .initDB, .createDuckDBSettles 0 none,
        .instantiateSettles 0 none none none]).calls.map (fun c => c.outcome) =
        [Promise.fulfilled, Promise.pending] ∧
      (run [.initDB, .initDB, .createDuckDBSettles 0 none,
        .instantiateSettles 0 none none none,
        .setParquetURLs salesMapping acceptAll]).calls.map (fun c => c.outcome) =
        [Promise.fulfilled, Promise.fulfilled] ∧
      ∃ r ∈ (run [.initDB, .initDB, .createDuckDBSettles 0 none,
        .instantiateSettles 0 none none none,
        .setParquetURLs salesMapping acceptAll]).registrations,
        r.outcome = Promise.fulfilled ∧ r.delivered = mappingRequests r.urls :=
  ⟨by decide, by decide, (readiness_includes_registration _).1 (by decide)⟩

/-! ## `query` -/

/-- C8. `query(sql, descriptor)` calls `connection.query` once, with `sql`.
If that throws nothing else is called. If it returns `r`, `cache_for_hash`
is called once, with `sql`, `r` and the descriptor, before
`arrowTableToJSON(r)`, which follows when `cache_for_hash` returns, whatever
`arrowTableToJSON` then does. Without a descriptor `cache_for_hash` is not
called. -/
theorem cache_pass_through {Raw Json : Type} (conn : JSString → Except Err Raw)
    (cache : JSString → Raw → CacheDescriptor → Except Err Unit)
    (toJSON : Raw → Except Err Json) (sql : JSString) (d : CacheDescriptor) :
    (∀ e, conn sql = Except.error e →
        (query (some conn) cache toJSON sql (some d)).1 = [Effect.connectionQuery sql] ∧
          (query (some conn) cache toJSON sql none).1 = [Effect.connectionQuery sql]) ∧
      ∀ r, conn sql = Except.ok r →
        (query (some conn) cache toJSON sql none).1 =
            [Effect.connectionQuery sql, Effect.arrowTableToJSON r] ∧
          (∀ u, cache sql r d = Except.ok u →
            (query (some conn) cache toJSON sql (some d)).1 =
              [Effect.connectionQuery sql, Effect.cache_for_hash sql r d,
                Effect.arrowTableToJSON r]) ∧
          ∀ e, cache sql r d = Except.error e →
            (query (some conn) cache toJSON sql (some d)).1 =
              [Effect.connectionQuery sql, Effect.cache_for_hash sql r d] := by
  refine ⟨?_, ?_⟩
  · intro e he
    simp only [query, he, and_self]
  · intro r hr
    refine ⟨?_, ?_, ?_⟩
    · simp only [query, hr]
    · intro u hu
      simp only [query, hr, hu]
    · intro e he
      simp only [query, hr, he]

/-- Witness for C8: the query returns row set `1`, and the trace with a
descriptor is the query, the cache call, the normalization. -/
theorem cache_pass_through_witness :
    (query (some (fun _ => Except.ok 1)) (fun _ _ _ => Except.ok ())
        (fun r => (Except.error (Err.thrown r) : Except Err Nat)) (js "SELECT 1")
        (some { route_hash := js "h", query_name := js "q", prerendering := false })).1 =
      [Effect.connectionQuery (js "SELECT 1"),
        Effect.cache_for_hash (js "SELECT 1") 1
          { route_hash := js "h", query_name := js "q", prerendering := false },
        Effect.arrowTableToJSON 1] :=
  ((cache_pass_through (fun _ => Except.ok 1) (fun _ _ _ => Except.ok ())
      (fun r => (Except.error (Err.thrown r) : Except Err Nat)) (js "SELECT 1")
      { route_hash := js "h", query_name := js "q", prerendering := false }).2 1 rfl).2.1
    () rfl

/-- C9 as stated fails: the query returns row set `1`, `cache_for_hash`
throws, and `query` with the descriptor throws that error while `query`
without it returns the normalized result. -/
theorem query_fails_when_cache_throws :
    (query (some (fun _ => Except.ok 1)) (fun _ _ _ => Except.error (Err.thrown 3))
        (fun r => (Except.ok (r + 10) : Except Err Nat)) (js "SELECT 1")
        (some { route_hash := js "h", query_name := js "q", prerendering := false })).2 =
        Except.error (Err.thrown 3) ∧
      (query (some (fun _ => Except.ok 1)) (fun _ _ _ => Except.error (Err.thrown 3))
        (fun r => (Except.ok (r + 10) : Except Err Nat)) (js "SELECT 1") none).2 =
        Except.ok 11 :=
  ⟨rfl, rfl⟩

/-- C9, amended. When `connection.query(sql)` returns `r`: `query(sql)`
returns `arrowTableToJSON(r)`; `query(sql, descriptor)` returns the same
when `cache_for_hash` returns, and throws `e` when `cache_for_hash` throws `e`. -/
theorem query_result_when_cache_returns {Raw Json : Type}
    (conn : JSString → Except Err Raw)
    (cache : JSString → Raw → CacheDescriptor → Except Err Unit)
    (toJSON : Raw → Except Err Json) (sql : JSString) (d : CacheDescriptor) (r : Raw)
    (h : conn sql = Except.ok r) :
    (query (some conn) cache toJSON sql none).2 = toJSON r ∧
      (∀ u, cache sql r d = Except.ok u →
        (query (some conn) cache toJSON sql (some d)).2 = toJSON r ∧
          (query (some conn) cache toJSON sql (some d)).2 =
            (query (some conn) cache toJSON sql none).2) ∧
      ∀ e, cache sql r d = Except.error e →
        (query (some conn) cache toJSON sql (some d)).2 = Except.error e := by
  refine ⟨?_, ?_, ?_⟩
  · simp only [query, h]
  · intro u hu
    simp only [query, h, hu, and_self]
  · intro e he
    simp only [query, h, he]

/-- Witness for C9, amended: the query returns row set `1` and
`cache_for_hash` returns. -/
theorem query_result_when_cache_returns_witness :
    (query (some (fun _ => Except.ok 1)) (fun _ _ _ => Except.ok ())
        (fun r => (Except.ok (r + 10) : Except Err Nat)) (js "SELECT 1")
        (some { route_hash := js "h", query_name := js "q", prerendering := false })).2 =
      Except.ok 11 :=
  ((query_result_when_cache_returns (fun _ => Except.ok 1) (fun _ _ _ => Except.ok ())
      (fun r => (Except.ok (r + 10) : Except Err Nat)) (js "SELECT 1")
      { route_hash := js "h", query_name := js "q", prerendering := false } 1 rfl).2.1
    () rfl).1

end DuckDBNode
